import Mathlib

set_option maxRecDepth 8000

/-!
Verification of the auto-role reconciliation engine.

The live engine is `cogs/role_scheduler.py` (the only extension loaded by
`main.py`); `role_scheduler.py` at the top level is a legacy variant that is
kept in the tree and is embedded here where a claim refers to it (the TTL
cache of its `fetch_item_level`).

Python values are embedded as follows: `float` values (item levels, delays,
clock readings) become `PyFloat`, an exact unnormalized fraction `num / den`
whose arithmetic and comparisons are plain integer arithmetic (every float
the program handles is a finite decimal, which `PyFloat` represents
exactly); JSON payloads become the inductive `PyJson`, whose dict/record
fields carry the string-typed level values the code reads; a Python function
that can raise an uncaught exception returns `Except Unit _`.
-/

/-- An exact finite-decimal number `num / den` (`den` is always a positive
power of ten here). Kept unnormalized so that all operations compute by
integer arithmetic. -/
structure PyFloat where
  num : Int
  den : Nat
deriving DecidableEq, Repr

/-- Embed an integer literal as a `PyFloat`. -/
def PyFloat.ofInt (n : Int) : PyFloat := ⟨n, 1⟩

/-- `a ≤ b` on fractions by cross multiplication. -/
def PyFloat.leB (a b : PyFloat) : Bool := a.num * (b.den : Int) ≤ b.num * (a.den : Int)

/-- `a ≥ b` on fractions. -/
def PyFloat.geB (a b : PyFloat) : Bool := PyFloat.leB b a

/-- `a < b` on fractions by cross multiplication. -/
def PyFloat.ltB (a b : PyFloat) : Bool := a.num * (b.den : Int) < b.num * (a.den : Int)

/-- Python `max(a, b)`: `a` when `a ≥ b` (first argument wins ties). -/
def pyMax (a b : PyFloat) : PyFloat := if a.geB b then a else b

/-- Exact addition (no normalization). -/
def PyFloat.add (a b : PyFloat) : PyFloat :=
  ⟨a.num * (b.den : Int) + b.num * (a.den : Int), a.den * b.den⟩

/-- Exact subtraction (no normalization). -/
def PyFloat.sub (a b : PyFloat) : PyFloat :=
  ⟨a.num * (b.den : Int) - b.num * (a.den : Int), a.den * b.den⟩

/-- Exact multiplication (no normalization). -/
def PyFloat.mul (a b : PyFloat) : PyFloat := ⟨a.num * b.num, a.den * b.den⟩

/-- The rational value of a `PyFloat`, for semantic statements. -/
def PyFloat.toRat (a : PyFloat) : ℚ := (a.num : ℚ) / (a.den : ℚ)

/-- On positive denominators, `leB` decides the rational order, so the
cross-multiplication comparisons used throughout agree with the intended
numeric order. -/
theorem PyFloat.leB_correct (a b : PyFloat) (ha : 0 < a.den) (hb : 0 < b.den) :
    a.leB b = true ↔ a.toRat ≤ b.toRat := by
  unfold PyFloat.leB PyFloat.toRat
  rw [div_le_div_iff₀ (by exact_mod_cast ha) (by exact_mod_cast hb)]
  rw [decide_eq_true_eq]
  constructor
  · intro h
    exact_mod_cast h
  · intro h
    exact_mod_cast h

/-- JSON payloads as seen by the schedulers: a dict with string-typed fields,
a list of records with string-typed fields, or anything else. -/
inductive PyJson where
  | jdict (fields : List (String × String))
  | jlist (entries : List (List (String × String)))
  | jother
deriving DecidableEq, Repr

/-- `dict.get(k)`: the value of the first binding of `k`, if any. -/
def getField (fields : List (String × String)) (k : String) : Option String :=
  (fields.find? (fun p => p.1 = k)).map Prod.snd

/-- Python `a or b` on two `dict.get` results: `None` and the empty string
are falsy, so they fall through to `b`. -/
def pyOr (a b : Option String) : Option String :=
  match a with
  | some s => if s = "" then b else some s
  | none => b

/-- Python truthiness of an optional string: `None` and `""` are falsy. -/
def pyTruthy (a : Option String) : Option String :=
  match a with
  | some s => if s = "" then none else some s
  | none => none

/-- `s.replace(",", "")`: drop every comma. -/
def stripCommas (s : String) : String :=
  String.mk (s.data.filter (fun c => c ≠ ','))

/-- Value of a digit string. -/
def digitsVal (cs : List Char) : Nat :=
  cs.foldl (fun acc c => acc * 10 + (c.toNat - 48)) 0

/-- Model of Python `float(s)` on plain decimal literals: optional sign,
an integer part and/or a fractional part, at least one digit in total;
anything else raises `ValueError`, embedded as `none`. -/
def parsePyFloat (s : String) : Option PyFloat :=
  let cs := s.data
  let signed : Bool × List Char :=
    match cs with
    | '-' :: t => (true, t)
    | '+' :: t => (false, t)
    | _ => (false, cs)
  let neg := signed.1
  let body := signed.2
  let intPart := body.takeWhile Char.isDigit
  let rest := body.dropWhile Char.isDigit
  let val? : Option PyFloat :=
    match rest with
    | [] =>
      if intPart.isEmpty then none
      else some ⟨digitsVal intPart, 1⟩
    | '.' :: frac =>
      if frac.all Char.isDigit ∧ ¬(intPart.isEmpty ∧ frac.isEmpty) then
        some ⟨(digitsVal intPart : Int) * (10 : Int) ^ frac.length + (digitsVal frac : Int),
              (10 : Nat) ^ frac.length⟩
      else none
    | _ => none
  val?.map (fun v => if neg then ⟨-v.num, v.den⟩ else v)

example : parsePyFloat (stripCommas "1,735.00") = some ⟨173500, 100⟩ := by decide

example : parsePyFloat (stripCommas "abc") = none := by decide

/-! ## `fetch_with_retry` (cogs/role_scheduler.py, lines 13-45)

One HTTP response per attempt number (attempts are 1-based as in the
source's `range(1, max_attempts + 1)`). The `Retry-After` header is modeled
already parsed; an absent or empty (falsy) header is `none`. The uniform
random jitter drawn at attempt `a` is modeled by the value `jitter a`. -/

/-- What one GET attempt observes. -/
inductive HttpResp where
  | ok (data : PyJson)
  | rate (retryAfter : Option PyFloat)
  | errStatus
  | exc
deriving DecidableEq, Repr

/-- The retry loop of `fetch_with_retry`, from attempt number `attempt` up to
`maxA`. Returns the result (`none` is Python `None`, i.e. Failure), the
number of HTTP calls issued, and the list of backoff delays slept. -/
def fetchLoop (resp : Nat → HttpResp) (jitter : Nat → PyFloat) (base : PyFloat)
    (attempt maxA : Nat) : Option PyJson × Nat × List PyFloat :=
  if attempt ≤ maxA then
    match resp attempt with
    | .ok d => (some d, 1, [])
    | .rate ra =>
      let delay :=
        (match ra with
         | some r => r
         | none => base.mul ⟨(2 : Int) ^ (attempt - 1), 1⟩).add (jitter attempt)
      let rest := fetchLoop resp jitter base (attempt + 1) maxA
      (rest.1, rest.2.1 + 1, delay :: rest.2.2)
    | .errStatus => (none, 1, [])
    | .exc =>
      let delay := (base.mul ⟨(2 : Int) ^ (attempt - 1), 1⟩).add (jitter attempt)
      let rest := fetchLoop resp jitter base (attempt + 1) maxA
      (rest.1, rest.2.1 + 1, delay :: rest.2.2)
  else (none, 0, [])
termination_by maxA + 1 - attempt

/-- `fetch_with_retry(session, url, headers, max_attempts, base_delay)`. -/
def fetch_with_retry (resp : Nat → HttpResp) (jitter : Nat → PyFloat)
    (max_attempts : Nat) (base_delay : PyFloat) : Option PyJson × Nat × List PyFloat :=
  fetchLoop resp jitter base_delay 1 max_attempts

/-! ## Payload handling (cogs/role_scheduler.py, lines 196-234)

`fetch_item_level` and `fetch_max_siblings_item_level` are embedded as
functions of the payloads their two `fetch_with_retry` calls produced
(`none` when the fetch failed). -/

/-- `RoleScheduler.fetch_item_level` (cogs): the single-character endpoint.
`if not data or not isinstance(data, dict)` makes an absent payload, a
non-dict payload and the (falsy) empty dict all yield `None`; the
`float(...)` call is wrapped in `try/except`, so a parse failure also
yields `None`. Only the `ItemAvgLevel` field is read. -/
def fetch_item_level_cogs (data : Option PyJson) : Option PyFloat :=
  match data with
  | some (.jdict fields) =>
    if fields.isEmpty then none
    else
      match pyTruthy (getField fields "ItemAvgLevel") with
      | some raw => parsePyFloat (stripCommas raw)
      | none => none
  | _ => none

/-- The level a sibling record contributes: `entry.get("ItemMaxLevel") or
entry.get("ItemAvgLevel")`, kept only when truthy. -/
def entryRaw (e : List (String × String)) : Option String :=
  pyTruthy (pyOr (getField e "ItemMaxLevel") (getField e "ItemAvgLevel"))

/-- The parsed level of a sibling record, when its raw field parses. -/
def entryLevel (e : List (String × String)) : Option PyFloat :=
  (entryRaw e).bind (fun s => parsePyFloat (stripCommas s))

/-- One iteration of the `for entry in data` loop of
`fetch_max_siblings_item_level`. The `float(...)` here is NOT wrapped in
`try/except`: an unparsable raw value raises `ValueError`, embedded as
`.error ()`. -/
def sibStep (acc : Option PyFloat) (e : List (String × String)) :
    Except Unit (Option PyFloat) :=
  match entryRaw e with
  | some raw =>
    match parsePyFloat (stripCommas raw) with
    | some lvl =>
      .ok (some (match acc with
                 | none => lvl
                 | some m => pyMax m lvl))
    | none => .error ()
  | none => .ok acc

/-- `RoleScheduler.fetch_max_siblings_item_level` (cogs): a non-list or
empty payload falls back to the single-character endpoint; otherwise the
maximum parsed level is folded over the records (and an unparsable record
raises). `sib` and `prof` are the payloads of the siblings fetch and of the
fallback profile fetch. -/
def fetch_max_siblings_item_level (sib prof : Option PyJson) :
    Except Unit (Option PyFloat) :=
  match sib with
  | some (.jlist entries) =>
    if entries.isEmpty then .ok (fetch_item_level_cogs prof)
    else List.foldlM sibStep none entries
  | _ => .ok (fetch_item_level_cogs prof)

/-! ## Member evaluation (cogs/role_scheduler.py, lines 136-194)

`evaluate_member` is embedded as a pure function of the member snapshot, the
outcome its `fetch_max_siblings_item_level` call would produce, and the
outcomes of its role-mutation calls. The `failed_members`,
`added_reasons` and `removed_reasons` lists the Python code mutates in
place are threaded explicitly; because they are caller-owned, their state
is reported even when the evaluation raises. -/

/-- `config.MIN_ITEM_LEVEL = 1720`. -/
def MIN_ITEM_LEVEL : PyFloat := ⟨1720, 1⟩

/-- A member snapshot: display name, join timestamp (epoch seconds,
`none` when Discord reports no join date), and current role holdings. -/
structure Member where
  name : String
  joinedAt : Option Int
  hasRole : Bool
  hasVerify : Bool
deriving DecidableEq, Repr

/-- Outcome of one `add_roles`/`remove_roles` call: success, a
`discord.Forbidden` error (caught by the code), or any other
`discord.HTTPException` (not caught, so it propagates). -/
inductive MutRes where
  | ok
  | forbidden
  | httpErr
deriving DecidableEq, Repr

/-- The `added_reasons`/`removed_reasons` dicts: one member-name list per
reason key. -/
structure Reasons where
  join : List String
  item : List String
deriving DecidableEq, Repr

/-- `reasons[key].append(name)` for the two keys the code uses. -/
def Reasons.push (r : Reasons) (key : String) (name : String) : Reasons :=
  if key = "join" then { r with join := r.join ++ [name] }
  else if key = "item" then { r with item := r.item ++ [name] }
  else r

deriving instance DecidableEq for Except

/-- Observable outcome of one `evaluate_member` call. `outcome` is the
returned result string, or `.error ()` when an uncaught exception escapes
the call; the list fields are the caller-owned lists after the call;
`apiCalled` records whether `fetch_max_siblings_item_level` was invoked;
`mutCalls` counts role-mutation calls issued. -/
structure EvalOut where
  outcome : Except Unit String
  failed : List Member
  ar : Reasons
  rr : Reasons
  apiCalled : Bool
  mutCalls : Nat
deriving DecidableEq, Repr

/-- The role-mutation block of `evaluate_member` (lines 176-194): add when
eligible and lacking the role, remove when ineligible and holding it,
otherwise skip; `discord.Forbidden` is caught and yields `"skipped"`. -/
def mutationPhase (should_have_role : Bool) (reason : String) (m : Member)
    (removeRes addRes : MutRes) (failed : List Member) (ar rr : Reasons)
    (apiCalled : Bool) : EvalOut :=
  if should_have_role ∧ ¬m.hasRole then
    match addRes with
    | .ok => ⟨.ok "added", failed, ar.push reason m.name, rr, apiCalled, 1⟩
    | .forbidden => ⟨.ok "skipped", failed, ar, rr, apiCalled, 1⟩
    | .httpErr => ⟨.error (), failed, ar, rr, apiCalled, 1⟩
  else if ¬should_have_role ∧ m.hasRole then
    match removeRes with
    | .ok => ⟨.ok "removed", failed, ar, rr.push reason m.name, apiCalled, 1⟩
    | .forbidden => ⟨.ok "skipped", failed, ar, rr, apiCalled, 1⟩
    | .httpErr => ⟨.error (), failed, ar, rr, apiCalled, 1⟩
  else ⟨.ok "skipped", failed, ar, rr, apiCalled, 0⟩

/-- `if joined_at and joined_at < config.JOIN_THRESHOLD` (line 159): a
missing join date is falsy. -/
def tenureOf (jt : Int) (m : Member) : Bool :=
  match m.joinedAt with
  | some t => t < jt
  | none => false

/-- `RoleScheduler.evaluate_member` (cogs). `joinThreshold` is
`config.JOIN_THRESHOLD`; `lookup` is what this member's
`fetch_max_siblings_item_level` call returns (`.error ()` when it raises);
`removeRes`/`addRes` are the outcomes of the mutation calls the member's
branch would issue. -/
def evaluate_member (joinThreshold : Int) (lookup : Except Unit (Option PyFloat))
    (removeRes addRes : MutRes) (m : Member) (is_retry : Bool)
    (failed : List Member) (ar rr : Reasons) : EvalOut :=
  if ¬m.hasVerify then
    -- 우수회원 역할이 있지만 거래소인증 역할이 없는 경우: remove and log under "join"
    if m.hasRole then
      match removeRes with
      | .ok => ⟨.ok "removed", failed, ar, { rr with join := rr.join ++ [m.name] }, false, 1⟩
      | .forbidden => ⟨.ok "skipped", failed, ar, rr, false, 1⟩
      | .httpErr => ⟨.error (), failed, ar, rr, false, 1⟩
    else ⟨.ok "skipped", failed, ar, rr, false, 0⟩
  else
    if tenureOf joinThreshold m then
      mutationPhase true "join" m removeRes addRes failed ar rr false
    else
      match lookup with
      | .error _ => ⟨.error (), failed, ar, rr, true, 0⟩
      | .ok (some lvl) =>
        mutationPhase (lvl.geB MIN_ITEM_LEVEL) "item" m removeRes addRes failed ar rr true
      | .ok none =>
        ⟨.ok "skipped", (if ¬is_retry then failed ++ [m] else failed), ar, rr, true, 0⟩

/-! ## The run (cogs/role_scheduler.py, lines 70-134)

`check_all_members` is embedded as a pure function of the resolved guild
data and a per-member environment giving, for each member, the lookup
outcome of the main pass, the lookup outcome of the deferred pass, and the
mutation-call outcomes. The `asyncio.gather` fan-out is sequentialized in
member order; a task exception surfaces as `.error ()` for the whole run,
exactly as an exception escaping `gather` aborts `check_all_members`. -/

/-- Per-member environment of one run. -/
structure MemberEnv where
  lookupMain : Except Unit (Option PyFloat)
  lookupRetry : Except Unit (Option PyFloat)
  removeRes : MutRes
  addRes : MutRes

/-- Accumulated state of a pass: the shared lists plus the run counters. -/
structure PassState where
  failed : List Member
  ar : Reasons
  rr : Reasons
  added : Nat
  removed : Nat
  skipped : Nat
  mutCalls : Nat
deriving DecidableEq, Repr

/-- Fold one member's evaluation into the pass state, counting the result
string exactly as the `for result in results` loops do. -/
def passStep (jt : Int) (env : Member → MemberEnv) (is_retry : Bool) (st : PassState)
    (m : Member) : Except Unit PassState :=
  let e := env m
  let lookup := if is_retry then e.lookupRetry else e.lookupMain
  let ev := evaluate_member jt lookup e.removeRes e.addRes m is_retry
    st.failed st.ar st.rr
  match ev.outcome with
  | .error _ => .error ()
  | .ok r =>
    .ok { failed := ev.failed, ar := ev.ar, rr := ev.rr
          added := st.added + (if r = "added" then 1 else 0)
          removed := st.removed + (if r = "removed" then 1 else 0)
          skipped := st.skipped + (if r = "skipped" then 1 else 0)
          mutCalls := st.mutCalls + ev.mutCalls }

/-- One pass over a member list. -/
def runPass (jt : Int) (env : Member → MemberEnv) (is_retry : Bool)
    (members : List Member) (st : PassState) : Except Unit PassState :=
  List.foldlM (passStep jt env is_retry) st members

/-- `members[i:i+chunk_size]` slicing: chunks of `n` in original order. -/
def listChunks (n : Nat) (l : List α) : List (List α) :=
  match l with
  | [] => []
  | a :: t =>
    if _hn : n = 0 then []
    else (a :: t).take n :: listChunks n ((a :: t).drop n)
termination_by l.length
decreasing_by
  simp only [List.length_drop, List.length_cons]
  omega

/-- The report at the end of a completed run. -/
structure RunReport where
  added : Nat
  removed : Nat
  skipped : Nat
  ar : Reasons
  rr : Reasons
  deferredCount : Nat
  mutCalls : Nat
deriving DecidableEq, Repr

/-- Result of one run: config-resolution failure returns early (before any
member is touched), otherwise the run completes with a report — unless an
uncaught exception aborts it (`.error ()`). -/
inductive RunStatus where
  | configAbort
  | done (rep : RunReport)
deriving DecidableEq, Repr

/-- Resolved guild data at the start of a run: whether the target role and
verification role were found, and the member list. (`guild = none` models
`bot.get_guild` returning `None`, on which `guild.roles` raises.) -/
structure GuildInfo where
  roleFound : Bool
  verifyFound : Bool
  members : List Member

/-- `RoleScheduler.check_all_members` (cogs). The main pass runs over the
chunks of the member list; after all chunks, the deferred pass re-evaluates
`failed_members` once with `is_retry=True` and a fresh empty failed list. -/
def check_all_members (jt : Int) (guild : Option GuildInfo) (env : Member → MemberEnv) :
    Except Unit RunStatus :=
  match guild with
  | none => .error ()
  | some g =>
    if ¬g.roleFound ∨ ¬g.verifyFound then .ok .configAbort
    else do
      let st0 : PassState := ⟨[], ⟨[], []⟩, ⟨[], []⟩, 0, 0, 0, 0⟩
      let stMain ← List.foldlM (fun st chunk => runPass jt env false chunk st) st0
        (listChunks 100 g.members)
      let deferredCount := stMain.failed.length
      let stFinal ← runPass jt env true stMain.failed { stMain with failed := [] }
      .ok (.done ⟨stFinal.added, stFinal.removed, stFinal.skipped,
                  stFinal.ar, stFinal.rr, deferredCount, stFinal.mutCalls⟩)

/-! ## Legacy `RoleScheduler.fetch_item_level` (role_scheduler.py, lines 47-112)

The legacy module keeps the TTL cache. Its retry loop differs from the
cogs one (three 0-based attempts, no jitter, parsing inside the loop); it
is embedded separately. The clock value read by `time.time()` at the start
of the call is the parameter `now`; the cache maps a character name to a
`(level, insertedAt)` pair. -/

/-- The in-memory level cache `self.cache`. -/
def Cache : Type := String → Option (PyFloat × PyFloat)

/-- `self.cache[name] = (lvl, now)`: write-through, replacing wholesale. -/
def cacheInsert (c : Cache) (name : String) (v : PyFloat × PyFloat) : Cache :=
  fun n => if n = name then some v else c n

/-- The decoded body of a 200 response in the legacy loop: undecodable
JSON, a decodable non-dict, or a dict with string fields. -/
inductive V1Body where
  | badJson
  | nonDict
  | dict (fields : List (String × String))

/-- What one attempt of the legacy loop observes: a 200 body (already
decoded as far as JSON goes), a 429, another error status, or a
timeout/exception. -/
inductive V1Resp where
  | ok (body : V1Body)
  | rate
  | errStatus
  | exc

/-- Level extraction of the legacy loop (lines 76-97): JSON decode failure,
a non-dict payload, a missing/falsy `ItemMaxLevel or ItemAvgLevel` field
and a `ValueError` from `float` all return `None`; the `ValueError` is
caught here. -/
def v1Extract (body : V1Body) : Option PyFloat :=
  match body with
  | .badJson => none
  | .nonDict => none
  | .dict fields =>
    match pyTruthy (pyOr (getField fields "ItemMaxLevel") (getField fields "ItemAvgLevel")) with
    | some raw => parsePyFloat (stripCommas raw)
    | none => none

/-- The legacy retry loop (`for attempt in range(max_retries)`, 0-based):
returns the extracted level (or `None`) and the number of HTTP calls
issued. A 200 returns immediately whatever extraction yields; a 429 or an
exception sleeps and retries; any other status returns `None`; exhausting
the attempts falls through to the final `return None`. -/
def v1Loop (resp : Nat → V1Resp) (attempt maxR : Nat) : Option PyFloat × Nat :=
  if attempt < maxR then
    match resp attempt with
    | .ok body => (v1Extract body, 1)
    | .rate =>
      let rest := v1Loop resp (attempt + 1) maxR
      (rest.1, rest.2 + 1)
    | .errStatus => (none, 1)
    | .exc =>
      let rest := v1Loop resp (attempt + 1) maxR
      (rest.1, rest.2 + 1)
  else (none, 0)
termination_by maxR - attempt

/-- Legacy `RoleScheduler.fetch_item_level` with its cache: a fresh cache
entry (`now - ts < cache_ttl`) short-circuits with no network call; a stale
or absent entry goes to the network (`max_retries = 3`), and a network
success writes `(lvl, now)` through the cache, replacing any existing
entry. Returns the level, the cache after the call, and the number of
network calls issued. -/
def fetch_item_level_v1 (cache_ttl : PyFloat) (now : PyFloat)
    (resp : Nat → V1Resp) (cache : Cache) (name : String) :
    Option PyFloat × Cache × Nat :=
  match cache name with
  | some (lvl, ts) =>
    if (now.sub ts).ltB cache_ttl then (some lvl, cache, 0)
    else
      let r := v1Loop resp 0 3
      match r.1 with
      | some lvl2 => (some lvl2, cacheInsert cache name (lvl2, now), r.2)
      | none => (none, cache, r.2)
  | none =>
    let r := v1Loop resp 0 3
    match r.1 with
    | some lvl2 => (some lvl2, cacheInsert cache name (lvl2, now), r.2)
    | none => (none, cache, r.2)

/-! ## Claim theorems -/

/-- `config.JOIN_THRESHOLD = datetime(2024, 1, 1, tzinfo=utc)` as epoch
seconds, used to instantiate witnesses. -/
def JOIN_THRESHOLD : Int := 1704067200

/-- C2: a member lacking the verification-prerequisite role is Removed when
holding the target role (and the removal call succeeds) and Skipped
otherwise, whatever the join date, the lookup outcome and the retry flag,
and the level API is never invoked for that member. -/
theorem C2_verification_gate (jt : Int) (lookup : Except Unit (Option PyFloat))
    (removeRes addRes : MutRes) (m : Member) (is_retry : Bool)
    (failed : List Member) (ar rr : Reasons)
    (hv : m.hasVerify = false) :
    (evaluate_member jt lookup removeRes addRes m is_retry failed ar rr).apiCalled = false
    ∧ (m.hasRole = true → removeRes = .ok →
        (evaluate_member jt lookup removeRes addRes m is_retry failed ar rr).outcome
          = .ok "removed")
    ∧ (m.hasRole = false →
        (evaluate_member jt lookup removeRes addRes m is_retry failed ar rr).outcome
          = .ok "skipped") := by
  unfold evaluate_member
  simp only [hv, Bool.not_false, if_true]
  refine ⟨?_, ?_, ?_⟩
  · cases hr : m.hasRole <;> cases removeRes <;> simp [hr]
  · intro hr hrem
    simp [hr, hrem]
  · intro hr
    simp [hr]

/-- Witness for C2 at member D of the spec scenario: holds the target role,
lacks verification. -/
theorem C2_verification_gate_witness :
    (evaluate_member JOIN_THRESHOLD (.ok none) .ok .ok
      ⟨"D", some 1000000000, true, false⟩ false [] ⟨[], []⟩ ⟨[], []⟩).apiCalled = false
    ∧ (evaluate_member JOIN_THRESHOLD (.ok none) .ok .ok
      ⟨"D", some 1000000000, true, false⟩ false [] ⟨[], []⟩ ⟨[], []⟩).outcome
        = .ok "removed" := by
  have h := C2_verification_gate JOIN_THRESHOLD (.ok none) .ok .ok
    ⟨"D", some 1000000000, true, false⟩ false [] ⟨[], []⟩ ⟨[], []⟩ rfl
  exact ⟨h.1, h.2.1 rfl rfl⟩

/-- C3: a verified member who joined before the tenure cutoff is eligible by
tenure — added (logged under the `join` reason) when lacking the target
role and the add call succeeds, skipped when already holding it — and the
level API is never invoked, whatever the lookup would have returned. -/
theorem C3_tenure_short_circuit (jt t : Int) (lookup : Except Unit (Option PyFloat))
    (removeRes addRes : MutRes) (m : Member) (is_retry : Bool)
    (failed : List Member) (ar rr : Reasons)
    (hv : m.hasVerify = true) (hj : m.joinedAt = some t) (ht : t < jt) :
    (evaluate_member jt lookup removeRes addRes m is_retry failed ar rr).apiCalled = false
    ∧ (m.hasRole = false → addRes = .ok →
        (evaluate_member jt lookup removeRes addRes m is_retry failed ar rr).outcome
            = .ok "added"
        ∧ (evaluate_member jt lookup removeRes addRes m is_retry failed ar rr).ar.join
            = ar.join ++ [m.name])
    ∧ (m.hasRole = true →
        (evaluate_member jt lookup removeRes addRes m is_retry failed ar rr).outcome
          = .ok "skipped") := by
  have htenure : tenureOf jt m = true := by
    unfold tenureOf
    rw [hj]
    simpa using ht
  unfold evaluate_member
  simp only [hv, Bool.not_true, if_false, htenure, if_true]
  unfold mutationPhase
  refine ⟨?_, ?_, ?_⟩
  · cases hr : m.hasRole
    · cases addRes <;> simp [hr]
    · simp [hr]
  · intro hr hadd
    simp [hr, hadd, Reasons.push]
  · intro hr
    simp [hr]

/-- Witness for C3 at member A of the spec scenario: verified, joined
2023-06-01 (epoch 1685577600), lacks the target role. -/
theorem C3_tenure_short_circuit_witness :
    (evaluate_member JOIN_THRESHOLD (.ok none) .ok .ok
      ⟨"A", some 1685577600, false, true⟩ false [] ⟨[], []⟩ ⟨[], []⟩).apiCalled = false
    ∧ (evaluate_member JOIN_THRESHOLD (.ok none) .ok .ok
      ⟨"A", some 1685577600, false, true⟩ false [] ⟨[], []⟩ ⟨[], []⟩).outcome = .ok "added"
    ∧ (evaluate_member JOIN_THRESHOLD (.ok none) .ok .ok
      ⟨"A", some 1685577600, false, true⟩ false [] ⟨[], []⟩ ⟨[], []⟩).ar.join = ["A"] := by
  have h := C3_tenure_short_circuit JOIN_THRESHOLD 1685577600 (.ok none) .ok .ok
    ⟨"A", some 1685577600, false, true⟩ false [] ⟨[], []⟩ ⟨[], []⟩ rfl rfl (by decide)
  exact ⟨h.1, (h.2.1 rfl rfl).1, (h.2.1 rfl rfl).2⟩

/-- C1: a verified member without tenure whose lookup returns Failure is
Skipped in the main pass (no mutation call, so never a removal, and the
failure is never compared against the level threshold), is appended to the
deferred queue exactly once; with `is_retry` set (the deferred pass) a
second Failure is again Skipped and is not re-queued; and a single-member
run whose lookups fail in both passes completes with two Skips, one
deferred member and zero mutations. -/
theorem C1_lookup_failure_deferred (jt : Int) (removeRes addRes : MutRes) (m : Member)
    (failed : List Member) (ar rr : Reasons)
    (hv : m.hasVerify = true) (ht : tenureOf jt m = false) :
    evaluate_member jt (.ok none) removeRes addRes m false failed ar rr
      = ⟨.ok "skipped", failed ++ [m], ar, rr, true, 0⟩
    ∧ evaluate_member jt (.ok none) removeRes addRes m true failed ar rr
      = ⟨.ok "skipped", failed, ar, rr, true, 0⟩
    ∧ (∀ env : Member → MemberEnv,
        env m = ⟨.ok none, .ok none, removeRes, addRes⟩ →
        check_all_members jt (some ⟨true, true, [m]⟩) env
          = .ok (.done ⟨0, 0, 2, ⟨[], []⟩, ⟨[], []⟩, 1, 0⟩)) := by
  have h1 : ∀ (irt : Bool) (f : List Member) (a r : Reasons),
      evaluate_member jt (.ok none) removeRes addRes m irt f a r
        = ⟨.ok "skipped", if irt then f else f ++ [m], a, r, true, 0⟩ := by
    intro irt f a r
    unfold evaluate_member
    simp only [hv, Bool.not_true, if_false, ht, Bool.false_eq_true]
    cases irt <;> simp
  refine ⟨by simpa using h1 false failed ar rr, by simpa using h1 true failed ar rr, ?_⟩
  intro env henv
  unfold check_all_members
  simp only [Bool.not_true, false_or, if_false]
  rw [listChunks]
  simp only [List.foldlM, runPass, passStep, henv, listChunks]
  simp [listChunks, List.foldlM, passStep, henv, h1 false, h1 true, Bind.bind, Except.bind,
    Pure.pure, Except.pure]

/-- Environment of the C1 witness: every lookup fails, mutations succeed. -/
def envLookupFail : Member → MemberEnv := fun _ => ⟨.ok none, .ok none, .ok, .ok⟩

/-- Witness for C1 at member E of the spec scenario: verified, joined after
the cutoff, lookup fails in both passes. -/
theorem C1_lookup_failure_deferred_witness :
    evaluate_member JOIN_THRESHOLD (.ok none) .ok .ok
      ⟨"E", some 1720000000, false, true⟩ false [] ⟨[], []⟩ ⟨[], []⟩
      = ⟨.ok "skipped", [⟨"E", some 1720000000, false, true⟩], ⟨[], []⟩, ⟨[], []⟩, true, 0⟩
    ∧ check_all_members JOIN_THRESHOLD
        (some ⟨true, true, [⟨"E", some 1720000000, false, true⟩]⟩) envLookupFail
      = .ok (.done ⟨0, 0, 2, ⟨[], []⟩, ⟨[], []⟩, 1, 0⟩) := by
  have h := C1_lookup_failure_deferred JOIN_THRESHOLD .ok .ok
    ⟨"E", some 1720000000, false, true⟩ [] ⟨[], []⟩ ⟨[], []⟩ rfl (by decide)
  exact ⟨by simpa using h.1, h.2.2 envLookupFail rfl⟩

/-- C7 counterexample: member B of the spec scenario (verified, joined
after the cutoff, lookup succeeds at level 1735 ≥ 1720, lacks the target
role) whose `add_roles` raises `discord.Forbidden`. The evaluation returns
the result string `"skipped"`, not a `"failed"` record, so the
permission-denied member is counted as Skipped, and the reason lists stay
empty. -/
theorem C7_permission_denied_counterexample :
    (evaluate_member JOIN_THRESHOLD (.ok (some ⟨1735, 1⟩)) .ok .forbidden
      ⟨"B", some 1717200000, false, true⟩ false [] ⟨[], []⟩ ⟨[], []⟩).outcome
      = .ok "skipped"
    ∧ "skipped" ≠ "failed"
    ∧ (evaluate_member JOIN_THRESHOLD (.ok (some ⟨1735, 1⟩)) .ok .forbidden
      ⟨"B", some 1717200000, false, true⟩ false [] ⟨[], []⟩ ⟨[], []⟩).ar = ⟨[], []⟩ := by
  refine ⟨by decide, by decide, by decide⟩

/-- C7 amended: a mutation failing with `discord.Forbidden` is not retried
(exactly one mutation call is issued), the batch continues (the evaluation
returns normally rather than raising), but the member's result is returned
as `"skipped"` — the permission failure is only logged, never recorded as a
distinct Failed outcome. Stated for the removal issued by the verification
gate and for the add issued to an eligible-by-tenure member. -/
theorem C7_permission_denied_amended (jt : Int) (lookup : Except Unit (Option PyFloat))
    (addRes removeRes : MutRes) (m : Member) (is_retry : Bool)
    (failed : List Member) (ar rr : Reasons) :
    (m.hasVerify = false → m.hasRole = true →
      evaluate_member jt lookup .forbidden addRes m is_retry failed ar rr
        = ⟨.ok "skipped", failed, ar, rr, false, 1⟩)
    ∧ (m.hasVerify = true → tenureOf jt m = true → m.hasRole = false →
      evaluate_member jt lookup removeRes .forbidden m is_retry failed ar rr
        = ⟨.ok "skipped", failed, ar, rr, false, 1⟩) := by
  constructor
  · intro hv hr
    unfold evaluate_member
    simp [hv, hr]
  · intro hv ht hr
    unfold evaluate_member mutationPhase
    simp [hv, ht, hr]

/-- Witness for the amended C7: member D (verified gate removal) and member
A (tenure add), both hitting `discord.Forbidden`. -/
theorem C7_permission_denied_amended_witness :
    evaluate_member JOIN_THRESHOLD (.ok none) .forbidden .ok
      ⟨"D", some 1000000000, true, false⟩ false [] ⟨[], []⟩ ⟨[], []⟩
      = ⟨.ok "skipped", [], ⟨[], []⟩, ⟨[], []⟩, false, 1⟩
    ∧ evaluate_member JOIN_THRESHOLD (.ok none) .ok .forbidden
      ⟨"A", some 1685577600, false, true⟩ false [] ⟨[], []⟩ ⟨[], []⟩
      = ⟨.ok "skipped", [], ⟨[], []⟩, ⟨[], []⟩, false, 1⟩ := by
  refine ⟨(C7_permission_denied_amended JOIN_THRESHOLD (.ok none) .ok .ok
    ⟨"D", some 1000000000, true, false⟩ false [] ⟨[], []⟩ ⟨[], []⟩).1 rfl rfl,
    (C7_permission_denied_amended JOIN_THRESHOLD (.ok none) .ok .ok
    ⟨"A", some 1685577600, false, true⟩ false [] ⟨[], []⟩ ⟨[], []⟩).2 rfl (by decide) rfl⟩

/-- C6: in `fetch_max_siblings_item_level` the `float(raw.replace(...))`
call is not guarded, so one sibling record with an unparsable level string
raises an uncaught `ValueError` (first conjunct) instead of returning the
permanent-failure value `None` — unlike `fetch_item_level`, whose guarded
parse does return `None` on the same bad field (second conjunct) — and the
exception escapes `evaluate_member`, so it is not isolated to the one
member (third conjunct). -/
theorem C6_sibling_parse_uncaught :
    fetch_max_siblings_item_level (some (.jlist [[("ItemMaxLevel", "abc")]])) none
      = .error ()
    ∧ fetch_item_level_cogs (some (.jdict [("ItemAvgLevel", "abc")])) = none
    ∧ (evaluate_member JOIN_THRESHOLD (.error ()) .ok .ok
        ⟨"C", some 1720000000, false, true⟩ false [] ⟨[], []⟩ ⟨[], []⟩).outcome
      = .error () := by
  refine ⟨by decide, by decide, by decide⟩

/-- Environment in which every member's lookup succeeds and every mutation
succeeds. -/
def envBenign : Member → MemberEnv :=
  fun _ => ⟨.ok (some ⟨1735, 1⟩), .ok (some ⟨1735, 1⟩), .ok, .ok⟩

/-- Environment in which the main-pass lookup raises (an unparsable sibling
record, cf. C6). -/
def envPoisoned : Member → MemberEnv := fun _ => ⟨.error (), .ok none, .ok, .ok⟩

/-- C9: a missing target role or verification role returns before any member
is processed (first two conjuncts), and an unresolvable guild raises on
`guild.roles` before any member is processed (third conjunct) — in all
three cases no mutation is issued. But configuration failure is NOT the
only failure that aborts a run: a member whose sibling-level parse raises
(C6) aborts the whole run too (fourth conjunct). -/
theorem C9_config_abort_not_only (m : Member) :
    check_all_members JOIN_THRESHOLD (some ⟨false, true, [m]⟩) envBenign
      = .ok .configAbort
    ∧ check_all_members JOIN_THRESHOLD (some ⟨true, false, [m]⟩) envBenign
      = .ok .configAbort
    ∧ check_all_members JOIN_THRESHOLD none envBenign = .error ()
    ∧ check_all_members JOIN_THRESHOLD
        (some ⟨true, true, [⟨"C", some 1720000000, false, true⟩]⟩) envPoisoned
      = .error () := by
  refine ⟨by simp [check_all_members], by simp [check_all_members],
    by simp [check_all_members], ?_⟩
  simp [check_all_members, listChunks, List.foldlM, runPass, passStep, envPoisoned,
    evaluate_member, tenureOf, JOIN_THRESHOLD, Bind.bind, Except.bind, Pure.pure, Except.pure]

/-- Witness for C9 at a concrete member. -/
theorem C9_config_abort_not_only_witness :
    check_all_members JOIN_THRESHOLD
      (some ⟨false, true, [⟨"A", some 1685577600, false, true⟩]⟩) envBenign
      = .ok .configAbort
    ∧ check_all_members JOIN_THRESHOLD
        (some ⟨true, true, [⟨"C", some 1720000000, false, true⟩]⟩) envPoisoned
      = .error () := by
  exact ⟨(C9_config_abort_not_only ⟨"A", some 1685577600, false, true⟩).1,
    (C9_config_abort_not_only ⟨"A", some 1685577600, false, true⟩).2.2.2⟩

/-- An attempt outcome the loop retries after: HTTP 429 or a transport
exception. -/
def isRetryable : HttpResp → Bool
  | .rate _ => true
  | .exc => true
  | _ => false

/-- The delay `fetch_with_retry` sleeps after retryable attempt `a`: the
Retry-After value plus jitter when the header is present, otherwise
`base * 2^(a-1)` plus jitter (both for a hint-less 429 and for a transport
error). -/
def attemptDelay (resp : Nat → HttpResp) (jitter : Nat → PyFloat) (base : PyFloat)
    (a : Nat) : PyFloat :=
  match resp a with
  | .rate (some r) => r.add (jitter a)
  | _ => (base.mul ⟨(2 : Int) ^ (a - 1), 1⟩).add (jitter a)

/-- `attemptDelay` on a 429 carrying a Retry-After hint. -/
theorem attemptDelay_rate_some (resp : Nat → HttpResp) (jitter : Nat → PyFloat)
    (base : PyFloat) (a : Nat) (r : PyFloat) (h : resp a = .rate (some r)) :
    attemptDelay resp jitter base a = r.add (jitter a) := by
  unfold attemptDelay
  rw [h]

/-- `attemptDelay` on a 429 without a Retry-After hint. -/
theorem attemptDelay_rate_none (resp : Nat → HttpResp) (jitter : Nat → PyFloat)
    (base : PyFloat) (a : Nat) (h : resp a = .rate none) :
    attemptDelay resp jitter base a
      = (base.mul ⟨(2 : Int) ^ (a - 1), 1⟩).add (jitter a) := by
  unfold attemptDelay
  rw [h]

/-- `attemptDelay` on a transport error. -/
theorem attemptDelay_exc (resp : Nat → HttpResp) (jitter : Nat → PyFloat)
    (base : PyFloat) (a : Nat) (h : resp a = .exc) :
    attemptDelay resp jitter base a
      = (base.mul ⟨(2 : Int) ^ (a - 1), 1⟩).add (jitter a) := by
  unfold attemptDelay
  rw [h]

/-- When every attempt from `attempt` to `maxA` is retryable, the loop
issues one call per attempt, sleeps the per-attempt delay each time, and
returns Failure. -/
theorem fetchLoop_retry_all (resp : Nat → HttpResp) (jitter : Nat → PyFloat)
    (base : PyFloat) :
    ∀ (fuel attempt maxA : Nat), maxA + 1 - attempt = fuel →
    (∀ b, attempt ≤ b → b ≤ maxA → isRetryable (resp b) = true) →
    fetchLoop resp jitter base attempt maxA
      = (none, fuel,
         (List.range fuel).map (fun i => attemptDelay resp jitter base (attempt + i))) := by
  intro fuel
  induction fuel with
  | zero =>
    intro attempt maxA hf _hr
    rw [fetchLoop]
    have h : ¬(attempt ≤ maxA) := by omega
    simp [h]
  | succ n ih =>
    intro attempt maxA hf hr
    rw [fetchLoop]
    have hle : attempt ≤ maxA := by omega
    have hrb := hr attempt le_rfl hle
    have hnext := ih (attempt + 1) maxA (by omega) (fun b hb1 hb2 => hr b (by omega) hb2)
    simp only [hle, if_true]
    rw [List.range_succ_eq_map, List.map_cons, List.map_map]
    have hmap : (List.range n).map
          ((fun i => attemptDelay resp jitter base (attempt + i)) ∘ Nat.succ)
        = (List.range n).map (fun i => attemptDelay resp jitter base (attempt + 1 + i)) := by
      apply List.map_congr_left
      intro i _
      simp only [Function.comp_apply]
      congr 1
      omega
    cases hresp : resp attempt with
    | ok d => rw [hresp] at hrb; simp [isRetryable] at hrb
    | errStatus => rw [hresp] at hrb; simp [isRetryable] at hrb
    | rate ra =>
      rw [hnext]
      cases ra with
      | some r =>
        simp only [hmap, Nat.add_zero,
          attemptDelay_rate_some resp jitter base attempt r hresp]
      | none =>
        simp only [hmap, Nat.add_zero,
          attemptDelay_rate_none resp jitter base attempt hresp]
    | exc =>
      rw [hnext]
      simp only [hmap, Nat.add_zero, attemptDelay_exc resp jitter base attempt hresp]

/-- When attempt `k` answers with a non-2xx, non-429 status and every
earlier attempt is retryable, the loop stops at attempt `k`: `k` calls in
total (from attempt 1), `k - attempt` sleeps, Failure, no further
attempts. -/
theorem fetchLoop_abort_at (resp : Nat → HttpResp) (jitter : Nat → PyFloat)
    (base : PyFloat) :
    ∀ (fuel attempt maxA k : Nat), k - attempt = fuel → attempt ≤ k → k ≤ maxA →
    resp k = .errStatus →
    (∀ b, attempt ≤ b → b < k → isRetryable (resp b) = true) →
    fetchLoop resp jitter base attempt maxA
      = (none, k + 1 - attempt,
         (List.range (k - attempt)).map
           (fun i => attemptDelay resp jitter base (attempt + i))) := by
  intro fuel
  induction fuel with
  | zero =>
    intro attempt maxA k hf h1 h2 hk _hr
    have ha : attempt = k := by omega
    subst ha
    rw [fetchLoop]
    simp [h2, hk, Nat.sub_self]
  | succ n ih =>
    intro attempt maxA k hf h1 h2 hk hr
    have hlt : attempt < k := by omega
    have hle : attempt ≤ maxA := by omega
    have hrb := hr attempt le_rfl hlt
    have hnext := ih (attempt + 1) maxA k (by omega) (by omega) h2 hk
      (fun b hb1 hb2 => hr b (by omega) hb2)
    rw [fetchLoop]
    simp only [hle, if_true]
    have hrange : k - attempt = (k - (attempt + 1)) + 1 := by omega
    rw [hrange, List.range_succ_eq_map, List.map_cons, List.map_map]
    have hcount : k + 1 - (attempt + 1) + 1 = k + 1 - attempt := by omega
    have hmap : (List.range (k - (attempt + 1))).map
          ((fun i => attemptDelay resp jitter base (attempt + i)) ∘ Nat.succ)
        = (List.range (k - (attempt + 1))).map
            (fun i => attemptDelay resp jitter base (attempt + 1 + i)) := by
      apply List.map_congr_left
      intro i _
      simp only [Function.comp_apply]
      congr 1
      omega
    cases hresp : resp attempt with
    | ok d => rw [hresp] at hrb; simp [isRetryable] at hrb
    | errStatus => rw [hresp] at hrb; simp [isRetryable] at hrb
    | rate ra =>
      rw [hnext]
      cases ra with
      | some r =>
        simp only [hmap, hcount, Nat.add_zero,
          attemptDelay_rate_some resp jitter base attempt r hresp]
      | none =>
        simp only [hmap, hcount, Nat.add_zero,
          attemptDelay_rate_none resp jitter base attempt hresp]
    | exc =>
      rw [hnext]
      simp only [hmap, hcount, Nat.add_zero,
        attemptDelay_exc resp jitter base attempt hresp]

/-- Every attempt answers 429 with `Retry-After: 10`. -/
def respRetryAfterTen : Nat → HttpResp := fun _ => .rate (some ⟨10, 1⟩)

/-- A jitter draw of 0.5 seconds at every attempt (the upper end of the
permitted `[0, 0.5]` interval). -/
def jitterHalf : Nat → PyFloat := fun _ => ⟨1, 2⟩

/-- C4 counterexample: with `Retry-After: 10` present and a jitter draw of
0.5 ∈ [0, 0.5], the first sleep of `fetch_with_retry` is 10.5 seconds, not
the server-provided 10 seconds — the code adds the jitter to the
Retry-After hint as well, where the claim says the wait is the hint. -/
theorem C4_retry_after_counterexample :
    (fetch_with_retry respRetryAfterTen jitterHalf 5 ⟨1, 1⟩).2.2.head?
      = some (PyFloat.add ⟨10, 1⟩ ⟨1, 2⟩)
    ∧ (PyFloat.add ⟨10, 1⟩ ⟨1, 2⟩).toRat ≠ (PyFloat.toRat ⟨10, 1⟩)
    ∧ (0 : ℚ) ≤ PyFloat.toRat ⟨1, 2⟩ ∧ PyFloat.toRat ⟨1, 2⟩ ≤ 1 / 2 := by
  refine ⟨?_, by norm_num [PyFloat.add, PyFloat.toRat],
    by norm_num [PyFloat.toRat], by norm_num [PyFloat.toRat]⟩
  rw [fetch_with_retry, fetchLoop]
  simp [respRetryAfterTen, jitterHalf]

/-- C4 amended: a lookup whose every attempt is retryable (429 or transport
error) issues exactly `max_attempts` calls and returns Failure; the wait
after a 429 is the server Retry-After hint *plus jitter* when the hint is
present, else `base * 2^(attempt-1)` plus jitter; a transport error backs
off by the same formula; and any other non-2xx status aborts immediately
(exactly as many calls as attempts so far, Failure, no further attempts). -/
theorem C4_retry_loop_amended (resp : Nat → HttpResp) (jitter : Nat → PyFloat)
    (max_attempts : Nat) (base : PyFloat) :
    ((∀ b, 1 ≤ b → b ≤ max_attempts → isRetryable (resp b) = true) →
      fetch_with_retry resp jitter max_attempts base
        = (none, max_attempts,
           (List.range max_attempts).map (fun i => attemptDelay resp jitter base (1 + i))))
    ∧ (∀ a r, resp a = .rate (some r) →
        attemptDelay resp jitter base a = r.add (jitter a))
    ∧ (∀ a, resp a = .rate none →
        attemptDelay resp jitter base a
          = (base.mul ⟨(2 : Int) ^ (a - 1), 1⟩).add (jitter a))
    ∧ (∀ a, resp a = .exc →
        attemptDelay resp jitter base a
          = (base.mul ⟨(2 : Int) ^ (a - 1), 1⟩).add (jitter a))
    ∧ (∀ k, 1 ≤ k → k ≤ max_attempts → resp k = .errStatus →
        (∀ b, 1 ≤ b → b < k → isRetryable (resp b) = true) →
        fetch_with_retry resp jitter max_attempts base
          = (none, k,
             (List.range (k - 1)).map (fun i => attemptDelay resp jitter base (1 + i)))) := by
  refine ⟨?_, ?_, ?_, ?_, ?_⟩
  · intro hr
    rw [fetch_with_retry]
    have h := fetchLoop_retry_all resp jitter base max_attempts 1 max_attempts (by omega) hr
    simpa using h
  · intro a r h
    exact attemptDelay_rate_some resp jitter base a r h
  · intro a h
    exact attemptDelay_rate_none resp jitter base a h
  · intro a h
    exact attemptDelay_exc resp jitter base a h
  · intro k h1 h2 hk hr
    rw [fetch_with_retry]
    have h := fetchLoop_abort_at resp jitter base (k - 1) 1 max_attempts k (by omega) h1 h2 hk hr
    have hc : k + 1 - 1 = k := by omega
    rw [hc] at h
    exact h

/-- Every attempt raises a transport error. -/
def respAllExc : Nat → HttpResp := fun _ => .exc

/-- Attempt 1 is a transport error, attempt 2 answers HTTP 500. -/
def respErrAtTwo : Nat → HttpResp := fun a => if a = 2 then .errStatus else .exc

/-- Witness for the amended C4: all-transport-error exhaustion issues
exactly 5 calls, and a 500 at attempt 2 stops after exactly 2 calls. -/
theorem C4_retry_loop_amended_witness :
    fetch_with_retry respAllExc jitterHalf 5 ⟨1, 1⟩
      = (none, 5, (List.range 5).map (fun i => attemptDelay respAllExc jitterHalf ⟨1, 1⟩ (1 + i)))
    ∧ fetch_with_retry respErrAtTwo jitterHalf 5 ⟨1, 1⟩
      = (none, 2, (List.range 1).map (fun i => attemptDelay respErrAtTwo jitterHalf ⟨1, 1⟩ (1 + i))) := by
  constructor
  · exact (C4_retry_loop_amended respAllExc jitterHalf 5 ⟨1, 1⟩).1 (fun b _ _ => rfl)
  · have h := (C4_retry_loop_amended respErrAtTwo jitterHalf 5 ⟨1, 1⟩).2.2.2.2 2
      (by decide) (by decide) rfl
      (fun b hb1 hb2 => by
        have hb : b = 1 := by omega
        subst hb
        decide)
    simpa using h

/-- The legacy loop always issues at least one call when the attempt budget
is positive. -/
theorem v1Loop_calls_pos (resp : Nat → V1Resp) (maxR : Nat) (h : 0 < maxR) :
    1 ≤ (v1Loop resp 0 maxR).2 := by
  rw [v1Loop]
  simp only [h, if_true]
  cases resp 0 <;> simp

/-- C8: the legacy cached lookup. A cache entry fresher than the TTL is
returned with zero network calls and an unchanged cache; a stale entry
forces at least one network call; and a network success — from a stale
entry or from a cache miss — writes `(level, now)` through under the
queried name, unconditionally replacing whatever entry was there. -/
theorem C8_cache_ttl (cache_ttl now lvl ts : PyFloat) (resp : Nat → V1Resp)
    (cache : Cache) (name : String) :
    (cache name = some (lvl, ts) → (now.sub ts).ltB cache_ttl = true →
      fetch_item_level_v1 cache_ttl now resp cache name = (some lvl, cache, 0))
    ∧ (cache name = some (lvl, ts) → (now.sub ts).ltB cache_ttl = false →
      1 ≤ (fetch_item_level_v1 cache_ttl now resp cache name).2.2)
    ∧ (∀ lvl2, (v1Loop resp 0 3).1 = some lvl2 →
      (cache name = none ∨
        (cache name = some (lvl, ts) ∧ (now.sub ts).ltB cache_ttl = false)) →
      (fetch_item_level_v1 cache_ttl now resp cache name).2.1 name = some (lvl2, now)
      ∧ (fetch_item_level_v1 cache_ttl now resp cache name).1 = some lvl2) := by
  refine ⟨?_, ?_, ?_⟩
  · intro hc hfresh
    unfold fetch_item_level_v1
    rw [hc]
    simp [hfresh]
  · intro hc hstale
    unfold fetch_item_level_v1
    rw [hc]
    simp only [hstale, Bool.false_eq_true, if_false]
    cases hv : (v1Loop resp 0 3).1
    · simpa [hv] using v1Loop_calls_pos resp 3 (by omega)
    · simpa [hv] using v1Loop_calls_pos resp 3 (by omega)
  · intro lvl2 hv hc
    unfold fetch_item_level_v1
    rcases hc with hmiss | ⟨hhit, hstale⟩
    · rw [hmiss]
      simp [hv, cacheInsert]
    · rw [hhit]
      simp [hstale, hv, cacheInsert]

/-- Cache of the C8 witness: one entry for name `A`, level 1500, inserted
at time 500. -/
def cacheWitness : Cache :=
  fun n => if n = "A" then some (⟨1500, 1⟩, ⟨500, 1⟩) else none

/-- Network of the C8 witness: attempt 0 is rate-limited, attempt 1 returns
`ItemMaxLevel: "1,735.00"`. -/
def respV1Witness : Nat → V1Resp :=
  fun a => if a = 0 then .rate else .ok (.dict [("ItemMaxLevel", "1,735.00")])

/-- Witness for C8: at `now = 1000` the entry is fresh (TTL 3600), served
from cache with zero calls; at `now = 5000` it is stale, the network is
called and the parsed level 1735.00 replaces the old entry with timestamp
5000. -/
theorem C8_cache_ttl_witness :
    fetch_item_level_v1 ⟨3600, 1⟩ ⟨1000, 1⟩ respV1Witness cacheWitness "A"
      = (some ⟨1500, 1⟩, cacheWitness, 0)
    ∧ 1 ≤ (fetch_item_level_v1 ⟨3600, 1⟩ ⟨5000, 1⟩ respV1Witness cacheWitness "A").2.2
    ∧ (fetch_item_level_v1 ⟨3600, 1⟩ ⟨5000, 1⟩ respV1Witness cacheWitness "A").2.1 "A"
      = some (⟨173500, 100⟩, ⟨5000, 1⟩) := by
  have h1000 := C8_cache_ttl ⟨3600, 1⟩ ⟨1000, 1⟩ ⟨1500, 1⟩ ⟨500, 1⟩ respV1Witness
    cacheWitness "A"
  have h5000 := C8_cache_ttl ⟨3600, 1⟩ ⟨5000, 1⟩ ⟨1500, 1⟩ ⟨500, 1⟩ respV1Witness
    cacheWitness "A"
  refine ⟨h1000.1 (by decide) (by decide), h5000.2.1 (by decide) (by decide), ?_⟩
  have hloop : (v1Loop respV1Witness 0 3).1 = some ⟨173500, 100⟩ := by
    rw [v1Loop]
    simp only [respV1Witness]
    rw [v1Loop]
    simp [v1Extract, pyTruthy, pyOr, getField]
    decide
  exact (h5000.2.2 ⟨173500, 100⟩ hloop (Or.inr ⟨by decide, by decide⟩)).1

/-- Every value `float(s)` produces has a positive (power-of-ten)
denominator. -/
theorem parsePyFloat_den_pos (s : String) (v : PyFloat)
    (h : parsePyFloat s = some v) : 0 < v.den := by
  unfold parsePyFloat at h
  rw [Option.map_eq_some'] at h
  obtain ⟨a, ha, hv⟩ := h
  have hden : 0 < a.den := by
    split at ha
    · split at ha
      · exact absurd ha (by simp)
      · cases ha
        exact Nat.one_pos
    · split at ha
      · cases ha
        exact pow_pos (by norm_num) _
      · exact absurd ha (by simp)
    · exact absurd ha (by simp)
  split at hv <;> cases hv <;> simpa using hden

/-- Every level a sibling record contributes has a positive denominator. -/
theorem entryLevel_den_pos (e : List (String × String)) (l : PyFloat)
    (h : entryLevel e = some l) : 0 < l.den := by
  unfold entryLevel at h
  rw [Option.bind_eq_some] at h
  obtain ⟨s, _, hp⟩ := h
  exact parsePyFloat_den_pos _ _ hp

/-- `pyMax` returns one of its arguments. -/
theorem pyMax_cases (a b : PyFloat) : pyMax a b = a ∨ pyMax a b = b := by
  unfold pyMax
  split
  · exact Or.inl rfl
  · exact Or.inr rfl

/-- On positive denominators, `pyMax` computes the rational maximum. -/
theorem pyMax_toRat (a b : PyFloat) (ha : 0 < a.den) (hb : 0 < b.den) :
    (pyMax a b).toRat = max a.toRat b.toRat := by
  unfold pyMax PyFloat.geB
  split
  · rename_i h
    rw [PyFloat.leB_correct b a hb ha] at h
    rw [max_eq_left h]
  · rename_i h
    rw [Bool.not_eq_true, ← Bool.not_eq_true] at h
    have h2 : ¬(b.toRat ≤ a.toRat) := fun hle =>
      h ((PyFloat.leB_correct b a hb ha).mpr hle)
    rw [max_eq_right (le_of_not_le h2)]

/-- Whether a sibling record avoids the unguarded `ValueError`: its chosen
raw level, when present and truthy, parses. -/
def entryOk (e : List (String × String)) : Bool :=
  match entryRaw e with
  | some s => (parsePyFloat (stripCommas s)).isSome
  | none => true

/-- One step of the running maximum. -/
def maxStep (a : Option PyFloat) (l : PyFloat) : Option PyFloat :=
  some (match a with
        | none => l
        | some m => pyMax m l)

/-- When no record raises, the sibling fold is the pure running maximum
over the records. -/
theorem sibFold_no_raise (entries : List (List (String × String)))
    (acc : Option PyFloat) (h : ∀ e ∈ entries, entryOk e = true) :
    List.foldlM sibStep acc entries
      = .ok (entries.foldl (fun a e =>
          match entryLevel e with
          | some l => maxStep a l
          | none => a) acc) := by
  induction entries generalizing acc with
  | nil => simp [List.foldlM, pure, Except.pure]
  | cons e es ih =>
    have he := h e (List.mem_cons_self e es)
    have hes : ∀ x ∈ es, entryOk x = true :=
      fun x hx => h x (List.mem_cons_of_mem e hx)
    simp only [List.foldlM_cons, List.foldl_cons]
    unfold entryOk at he
    cases hr : entryRaw e with
    | none =>
      have hstep : sibStep acc e = .ok acc := by
        simp [sibStep, hr]
      have hlvl : entryLevel e = none := by
        simp [entryLevel, hr]
      rw [hstep, hlvl]
      simpa [Bind.bind, Except.bind] using ih acc hes
    | some s =>
      rw [hr] at he
      have he2 : (parsePyFloat (stripCommas s)).isSome = true := by
        simpa using he
      cases hp : parsePyFloat (stripCommas s) with
      | none => rw [hp] at he2; simp at he2
      | some lvl =>
        have hstep : sibStep acc e = .ok (maxStep acc lvl) := by
          simp [sibStep, hr, hp, maxStep]
        have hlvl : entryLevel e = some lvl := by
          simp [entryLevel, hr, hp]
        rw [hstep, hlvl]
        simpa [Bind.bind, Except.bind] using ih (maxStep acc lvl) hes

/-- The running maximum over the records only sees the parsed levels. -/
theorem sibFoldPure_filterMap (entries : List (List (String × String))) :
    ∀ acc : Option PyFloat,
    entries.foldl (fun a e =>
        match entryLevel e with
        | some l => maxStep a l
        | none => a) acc
      = (entries.filterMap entryLevel).foldl maxStep acc := by
  induction entries with
  | nil => intro acc; rfl
  | cons e es ih =>
    intro acc
    cases hl : entryLevel e with
    | none => simp [List.filterMap_cons, hl, ih]
    | some l => simp [List.filterMap_cons, hl, ih]

/-- The running maximum of a list of positive-denominator values, started
at `m`: it lands on an element (or on `m`), and dominates `m` and every
element in the rational order. -/
theorem foldl_maxStep_spec :
    ∀ (ls : List PyFloat) (m : PyFloat), 0 < m.den → (∀ l ∈ ls, 0 < l.den) →
    ∃ M, ls.foldl maxStep (some m) = some M
      ∧ (M = m ∨ M ∈ ls)
      ∧ m.toRat ≤ M.toRat
      ∧ (∀ l ∈ ls, l.toRat ≤ M.toRat)
      ∧ 0 < M.den := by
  intro ls
  induction ls with
  | nil =>
    intro m hm _
    exact ⟨m, rfl, Or.inl rfl, le_refl _, by simp, hm⟩
  | cons x xs ih =>
    intro m hm hls
    have hx : 0 < x.den := hls x (List.mem_cons_self x xs)
    have hxs : ∀ l ∈ xs, 0 < l.den := fun l hl => hls l (List.mem_cons_of_mem x hl)
    have hpm : 0 < (pyMax m x).den := by
      rcases pyMax_cases m x with h | h <;> rw [h] <;> assumption
    obtain ⟨M, hfold, hmem, hle, hbound, hMden⟩ := ih (pyMax m x) hpm hxs
    have hmaxR : (pyMax m x).toRat = max m.toRat x.toRat := pyMax_toRat m x hm hx
    refine ⟨M, ?_, ?_, ?_, ?_, hMden⟩
    · simpa [List.foldl_cons, maxStep] using hfold
    · rcases hmem with h | h
      · rcases pyMax_cases m x with h2 | h2
        · exact Or.inl (by rw [h, h2])
        · exact Or.inr (by rw [h, h2]; exact List.mem_cons_self x xs)
      · exact Or.inr (List.mem_cons_of_mem x h)
    · calc m.toRat ≤ (pyMax m x).toRat := by rw [hmaxR]; exact le_max_left _ _
        _ ≤ M.toRat := hle
    · intro l hl
      rcases List.mem_cons.mp hl with rfl | h
      · exact le_trans (by rw [hmaxR]; exact le_max_right _ _) hle
      · exact hbound l h

/-- `isinstance(data, list) and len(data) > 0` on a fetched payload. -/
def isNonEmptyList : Option PyJson → Bool
  | some (.jlist entries) => !entries.isEmpty
  | _ => false

/-- C5: on a non-empty siblings list in which every record carries a
parsable level, the result is a maximum: a level of one of the records
that dominates every record's level in the rational order, where each
record's level is its truthy `ItemMaxLevel` field in preference to
`ItemAvgLevel` (second conjunct); an empty or non-list payload (including
a failed fetch) falls back to the single-character endpoint (third
conjunct). -/
theorem C5_siblings_max (entries : List (List (String × String))) (prof : Option PyJson) :
    (entries ≠ [] → (∀ e ∈ entries, (entryLevel e).isSome = true) →
      ∃ M, fetch_max_siblings_item_level (some (.jlist entries)) prof = .ok (some M)
        ∧ M ∈ entries.filterMap entryLevel
        ∧ ∀ l ∈ entries.filterMap entryLevel, l.toRat ≤ M.toRat)
    ∧ (∀ (e : List (String × String)) (s : String),
        getField e "ItemMaxLevel" = some s → s ≠ "" → entryRaw e = some s)
    ∧ (∀ sib, isNonEmptyList sib = false →
        fetch_max_siblings_item_level sib prof = .ok (fetch_item_level_cogs prof)) := by
  refine ⟨?_, ?_, ?_⟩
  · intro hne hlvl
    have hok : ∀ e ∈ entries, entryOk e = true := by
      intro e he
      have hs := hlvl e he
      unfold entryLevel at hs
      unfold entryOk
      cases hr : entryRaw e with
      | none => rfl
      | some s =>
        rw [hr] at hs
        simpa using hs
    have hE : entries.isEmpty = false := by
      simpa [List.isEmpty_iff] using hne
    have hunf : fetch_max_siblings_item_level (some (.jlist entries)) prof
        = List.foldlM sibStep none entries := by
      simp [fetch_max_siblings_item_level, hE]
    rw [hunf, sibFold_no_raise entries none hok, sibFoldPure_filterMap]
    have hfm : entries.filterMap entryLevel ≠ [] := by
      cases entries with
      | nil => exact absurd rfl hne
      | cons e0 es =>
        have h0 := hlvl e0 (List.mem_cons_self e0 es)
        cases h0e : entryLevel e0 with
        | none => rw [h0e] at h0; simp at h0
        | some l => simp [List.filterMap_cons, h0e]
    have hpos : ∀ l ∈ entries.filterMap entryLevel, 0 < l.den := by
      intro l hl
      obtain ⟨e, _, hee⟩ := List.mem_filterMap.mp hl
      exact entryLevel_den_pos e l hee
    cases hls : entries.filterMap entryLevel with
    | nil => exact absurd hls hfm
    | cons x xs =>
      rw [hls] at hpos
      have hx : 0 < x.den := hpos x (List.mem_cons_self x xs)
      have hxs : ∀ l ∈ xs, 0 < l.den := fun l hl => hpos l (List.mem_cons_of_mem x hl)
      obtain ⟨M, hfold, hmem, hle, hbound, _⟩ := foldl_maxStep_spec xs x hx hxs
      refine ⟨M, ?_, ?_, ?_⟩
      · simp only [List.foldl_cons, maxStep]
        rw [hfold]
      · rcases hmem with h | h
        · rw [h]; exact List.mem_cons_self x xs
        · exact List.mem_cons_of_mem x h
      · intro l hl
        rcases List.mem_cons.mp hl with rfl | h
        · exact hle
        · exact hbound l h
  · intro e s h hne
    unfold entryRaw
    rw [h]
    simp [pyOr, pyTruthy, hne]
  · intro sib hs
    match sib with
    | none => rfl
    | some (.jdict f) => rfl
    | some .jother => rfl
    | some (.jlist es) =>
      have he : es.isEmpty = true := by
        simpa [isNonEmptyList] using hs
      simp [fetch_max_siblings_item_level, he]

/-- Witness for C5: two sibling records — one with both fields (the max
field wins), one with only an average field — and the `.jother` fallback. -/
theorem C5_siblings_max_witness :
    (∃ M, fetch_max_siblings_item_level
        (some (.jlist [[("ItemMaxLevel", "1,735.00"), ("ItemAvgLevel", "1,500.00")],
                       [("ItemAvgLevel", "1,600.00")]])) none = .ok (some M)
      ∧ M ∈ List.filterMap entryLevel
          [[("ItemMaxLevel", "1,735.00"), ("ItemAvgLevel", "1,500.00")],
           [("ItemAvgLevel", "1,600.00")]]
      ∧ ∀ l ∈ List.filterMap entryLevel
          [[("ItemMaxLevel", "1,735.00"), ("ItemAvgLevel", "1,500.00")],
           [("ItemAvgLevel", "1,600.00")]], l.toRat ≤ M.toRat)
    ∧ entryRaw [("ItemMaxLevel", "1,735.00"), ("ItemAvgLevel", "1,500.00")]
      = some "1,735.00"
    ∧ fetch_max_siblings_item_level (some .jother) none
      = .ok (fetch_item_level_cogs none) := by
  have h := C5_siblings_max
    [[("ItemMaxLevel", "1,735.00"), ("ItemAvgLevel", "1,500.00")],
     [("ItemAvgLevel", "1,600.00")]] none
  exact ⟨h.1 (by decide) (by decide),
    h.2.1 [("ItemMaxLevel", "1,735.00"), ("ItemAvgLevel", "1,500.00")] "1,735.00"
      (by decide) (by decide),
    h.2.2 (some .jother) (by decide)⟩

/-- Every `evaluate_member` call either raises or returns exactly one of
the three result strings, and the deferred queue grows (by the member, and
only alongside a `"skipped"` result) or stays put. -/
theorem evaluate_member_outcome_cases (jt : Int) (lookup : Except Unit (Option PyFloat))
    (removeRes addRes : MutRes) (m : Member) (is_retry : Bool)
    (failed : List Member) (ar rr : Reasons) :
    (evaluate_member jt lookup removeRes addRes m is_retry failed ar rr).outcome = .error ()
    ∨ ((evaluate_member jt lookup removeRes addRes m is_retry failed ar rr).outcome = .ok "added"
        ∧ (evaluate_member jt lookup removeRes addRes m is_retry failed ar rr).failed = failed)
    ∨ ((evaluate_member jt lookup removeRes addRes m is_retry failed ar rr).outcome = .ok "removed"
        ∧ (evaluate_member jt lookup removeRes addRes m is_retry failed ar rr).failed = failed)
    ∨ ((evaluate_member jt lookup removeRes addRes m is_retry failed ar rr).outcome = .ok "skipped"
        ∧ ((evaluate_member jt lookup removeRes addRes m is_retry failed ar rr).failed = failed
          ∨ (evaluate_member jt lookup removeRes addRes m is_retry failed ar rr).failed
              = failed ++ [m])) := by
  unfold evaluate_member mutationPhase
  repeat' split
  all_goals simp

/-- One pass step: one member accounts for exactly one counted outcome, and
the deferred queue never grows faster than the skip counter. -/
theorem passStep_invariant (jt : Int) (env : Member → MemberEnv) (irt : Bool)
    (st st' : PassState) (m : Member) (h : passStep jt env irt st m = .ok st') :
    st'.added + st'.removed + st'.skipped = st.added + st.removed + st.skipped + 1
    ∧ st'.failed.length + st.skipped ≤ st.failed.length + st'.skipped
    ∧ st.skipped ≤ st'.skipped := by
  unfold passStep at h
  simp only [] at h
  rcases evaluate_member_outcome_cases jt
      (if irt then (env m).lookupRetry else (env m).lookupMain)
      (env m).removeRes (env m).addRes m irt st.failed st.ar st.rr with
    herr | ⟨hok, hf⟩ | ⟨hok, hf⟩ | ⟨hok, hf⟩
  · rw [herr] at h
    simp at h
  · rw [hok] at h
    rw [Except.ok.injEq] at h
    subst h
    simp [hf]
    omega
  · rw [hok] at h
    rw [Except.ok.injEq] at h
    subst h
    simp [hf]
    omega
  · rw [hok] at h
    rw [Except.ok.injEq] at h
    subst h
    rcases hf with hf | hf <;> simp [hf] <;> omega

/-- Pass invariant: a completed pass counts exactly one outcome per member
and grows the skip counter at least as fast as the deferred queue. -/
theorem runPass_invariant (jt : Int) (env : Member → MemberEnv) (irt : Bool) :
    ∀ (ms : List Member) (st st' : PassState), runPass jt env irt ms st = .ok st' →
    st'.added + st'.removed + st'.skipped
      = st.added + st.removed + st.skipped + ms.length
    ∧ st'.failed.length + st.skipped ≤ st.failed.length + st'.skipped
    ∧ st.skipped ≤ st'.skipped := by
  intro ms
  induction ms with
  | nil =>
    intro st st' h
    unfold runPass at h
    simp only [List.foldlM_nil] at h
    have hst : st = st' := by
      simpa [pure, Except.pure] using h
    subst hst
    simp
  | cons m ms ih =>
    intro st st' h
    unfold runPass at h
    rw [List.foldlM_cons] at h
    cases hstep : passStep jt env irt st m with
    | error e =>
      rw [hstep] at h
      simp [Bind.bind, Except.bind] at h
    | ok st1 =>
      rw [hstep] at h
      have h2 : runPass jt env irt ms st1 = .ok st' := by
        simpa [Bind.bind, Except.bind, runPass] using h
      obtain ⟨s1, s2, s3⟩ := passStep_invariant jt env irt st st1 m hstep
      obtain ⟨t1, t2, t3⟩ := ih st1 st' h2
      refine ⟨?_, ?_, ?_⟩
      · simp only [List.length_cons]
        omega
      · omega
      · omega

/-- Chunking with a positive chunk size loses no member and keeps order. -/
theorem listChunks_flatten_le {α : Type} (n : Nat) (hn : n ≠ 0) :
    ∀ (len : Nat) (l : List α), l.length ≤ len → (listChunks n l).flatten = l := by
  intro len
  induction len with
  | zero =>
    intro l hl
    have h0 : l = [] := List.eq_nil_of_length_eq_zero (by omega)
    subst h0
    rw [listChunks]
    rfl
  | succ k ih =>
    intro l hl
    cases l with
    | nil =>
      rw [listChunks]
      rfl
    | cons a t =>
      rw [listChunks, dif_neg hn]
      rw [List.flatten_cons]
      have hlen : ((a :: t).drop n).length ≤ k := by
        simp only [List.length_drop, List.length_cons]
        simp only [List.length_cons] at hl
        omega
      rw [ih _ hlen]
      exact List.take_append_drop n (a :: t)

/-- `members[i:i+n]` chunking flattens back to the member list. -/
theorem listChunks_flatten {α : Type} (n : Nat) (hn : n ≠ 0) (l : List α) :
    (listChunks n l).flatten = l :=
  listChunks_flatten_le n hn l.length l le_rfl

/-- Folding a pass chunk-by-chunk is the pass over the flattened list. -/
theorem foldlM_chunks (jt : Int) (env : Member → MemberEnv) (irt : Bool) :
    ∀ (cs : List (List Member)) (st : PassState),
    List.foldlM (fun st chunk => runPass jt env irt chunk st) st cs
      = runPass jt env irt cs.flatten st := by
  intro cs
  induction cs with
  | nil => intro st; rfl
  | cons c cs ih =>
    intro st
    rw [List.foldlM_cons, List.flatten_cons]
    unfold runPass
    rw [List.foldlM_append]
    show _ = (List.foldlM (passStep jt env irt) st c) >>= _
    cases hc : List.foldlM (passStep jt env irt) st c with
    | error e => simp [Bind.bind, Except.bind]
    | ok st1 =>
      simp only [Bind.bind, Except.bind]
      exact ih st1

/-- C10: a run that completes reports exactly one of added/removed/skipped
per completed evaluation: the three counters sum to the number of members
plus the number of deferred members (each deferred member is evaluated once
more in the deferred pass), and every deferred member was already counted
once as skipped, so the skip count is at least the deferred count. -/
theorem C10_outcome_accounting (jt : Int) (g : GuildInfo) (env : Member → MemberEnv)
    (rep : RunReport) (h : check_all_members jt (some g) env = .ok (.done rep)) :
    rep.added + rep.removed + rep.skipped = g.members.length + rep.deferredCount
    ∧ rep.deferredCount ≤ rep.skipped := by
  unfold check_all_members at h
  simp only [] at h
  split at h
  · simp at h
  · cases hmain : List.foldlM (fun st chunk => runPass jt env false chunk st)
        ⟨[], ⟨[], []⟩, ⟨[], []⟩, 0, 0, 0, 0⟩ (listChunks 100 g.members) with
    | error e =>
      rw [hmain] at h
      simp [Bind.bind, Except.bind] at h
    | ok stMain =>
      rw [hmain] at h
      simp only [Bind.bind, Except.bind] at h
      cases hfin : runPass jt env true stMain.failed { stMain with failed := [] } with
      | error e =>
        rw [hfin] at h
        simp [Bind.bind, Except.bind] at h
      | ok stFinal =>
        rw [hfin] at h
        simp only [Bind.bind, Except.bind, Except.ok.injEq, RunStatus.done.injEq] at h
        rw [foldlM_chunks, listChunks_flatten 100 (by omega)] at hmain
        obtain ⟨m1, m2, m3⟩ := runPass_invariant jt env false g.members _ stMain hmain
        obtain ⟨f1, f2, f3⟩ := runPass_invariant jt env true stMain.failed _ stFinal hfin
        subst h
        dsimp only at m1 m2 m3 f1 f2 f3 ⊢
        simp only [List.length_nil] at m1 m2 f1 f2
        omega

/-- Witness for C10: a one-member run (tenure-eligible member A, added)
whose counters satisfy the accounting identity. -/
theorem C10_outcome_accounting_witness :
    check_all_members JOIN_THRESHOLD
      (some ⟨true, true, [⟨"A", some 1685577600, false, true⟩]⟩) envBenign
      = .ok (.done ⟨1, 0, 0, ⟨["A"], []⟩, ⟨[], []⟩, 0, 1⟩)
    ∧ 1 + 0 + 0 = [(⟨"A", some 1685577600, false, true⟩ : Member)].length + 0
    ∧ (0 : Nat) ≤ 0 := by
  have hrun : check_all_members JOIN_THRESHOLD
      (some ⟨true, true, [⟨"A", some 1685577600, false, true⟩]⟩) envBenign
      = .ok (.done ⟨1, 0, 0, ⟨["A"], []⟩, ⟨[], []⟩, 0, 1⟩) := by
    simp [check_all_members, listChunks, List.foldlM, runPass, passStep, envBenign,
      evaluate_member, tenureOf, JOIN_THRESHOLD, mutationPhase, Reasons.push,
      Bind.bind, Except.bind, Pure.pure, Except.pure]
  have h := C10_outcome_accounting JOIN_THRESHOLD
    ⟨true, true, [⟨"A", some 1685577600, false, true⟩]⟩ envBenign
    ⟨1, 0, 0, ⟨["A"], []⟩, ⟨[], []⟩, 0, 1⟩ hrun
  refine ⟨hrun, ?_, h.2⟩
  simp only [List.length_cons, List.length_nil]
